import Mathlib

/-!
Verification of the CSV export logic of `google_sheets_api_export.py`.

The script's core is `export_sheet_to_csv`, which turns a grid of cell
values (as delivered by the Sheets API: each cell a display string) into
CSV text: a cell whose string contains `,`, `"` or a newline is wrapped in
double quotes with embedded quotes doubled; fields are joined with `,`,
rows with `\n`.  The driver `download_all_sheets` writes one file per tab
named `<tab name with '/' replaced by '_'>.csv`, skipping tabs whose
export is falsy (None for an empty grid, or the empty string).

Strings are modelled as `List Char`; a grid is a list of rows, each row a
list of cell display strings.
-/

/-- A row of cell display strings. -/
abbrev Row : Type := List (List Char)

/-- A grid: list of rows, rows may have differing lengths. -/
abbrev Grid : Type := List Row

/-- Python's `str(cell)` applied to the string values the Sheets API
delivers: the identity on the display string. -/
def display (cell : List Char) : List Char := cell

/-- The quoting condition of line 55 of the script:
`',' in str(cell) or '"' in str(cell) or '\n' in str(cell)`. -/
def containsSpecial (s : List Char) : Prop := ',' ∈ s ∨ '"' ∈ s ∨ '\n' ∈ s

instance (s : List Char) : Decidable (containsSpecial s) := by
  unfold containsSpecial; infer_instance

/-- Line 56: `str(cell).replace(chr(34), chr(34) + chr(34))` — every `"`
becomes `""`; a single-character pattern replace acts character by
character. -/
def escapeQuotes : List Char → List Char
  | [] => []
  | c :: rest => (if c = '"' then ['"', '"'] else [c]) ++ escapeQuotes rest

/-- Lines 53–58: one serialized field per cell.  The cell is first
converted to its display string; if it contains a special character it is
wrapped in `"` with embedded quotes doubled, otherwise used as is. -/
def serializeCell (cell : List Char) : List Char :=
  if containsSpecial (display cell) then
    '"' :: (escapeQuotes (display cell) ++ ['"'])
  else display cell

/-- `sep.join(pieces)` of Python: pieces joined by a single separator,
none leading or trailing. -/
def joinWith (d : Char) : List (List Char) → List Char
  | [] => []
  | [p] => p
  | p :: q :: ps => p ++ d :: joinWith d (q :: ps)

/-- Line 59: `','.join(csv_row)` over the serialized fields of one row. -/
def serializeRow (row : Row) : List Char :=
  joinWith ',' (row.map serializeCell)

/-- Line 61: `'\n'.join(csv_content)` over the serialized rows. -/
def serializeGrid (g : Grid) : List Char :=
  joinWith '\n' (g.map serializeRow)

/-- Lines 43–61 of `export_sheet_to_csv`, after the API call: an empty
`values` list is reported as "no data" (`None`, modelled as `none`);
otherwise the CSV text is returned. -/
def export_sheet_to_csv (values : Grid) : Option (List Char) :=
  if values = [] then none else some (serializeGrid values)

/-- Line 84: `sheet_name.replace('/', '_')` — single-character replace,
hence a character map. -/
def sanitize (name : List Char) : List Char :=
  name.map fun c => if c = '/' then '_' else c

/-- Line 84: the output filename `f"{sheet_name.replace('/', '_')}.csv"`. -/
def outName (name : List Char) : List Char :=
  sanitize name ++ (".csv".toList)

/-- Lines 81–90 of `download_all_sheets`, one loop iteration: the file is
written only when `csv_data` is truthy in Python, i.e. not `None` and not
the empty string.  Returns the `(filename, contents)` pair written, if
any. -/
def processTab (name : List Char) (g : Grid) : Option (List Char × List Char) :=
  match export_sheet_to_csv g with
  | none => none
  | some s => if s = [] then none else some (outName name, s)

/-- The driver's loop over all tabs (lines 77–90): the list of files
written, in order. -/
def download_all_sheets (tabs : List (List Char × Grid)) :
    List (List Char × List Char) :=
  tabs.filterMap fun t => processTab t.1 t.2

/-! ### An RFC-4180-style parser

Used to state the round-trip claim: rows are split on newlines occurring
outside quotes, fields on commas outside quotes, then one layer of quotes
is stripped and embedded doubled quotes are undoubled. -/

/-- Quote-state after reading one character: a `"` toggles it. -/
def toggle (inQ : Bool) (c : Char) : Bool :=
  if c = '"' then !inQ else inQ

/-- Quote-state after scanning a whole string from state `inQ`. -/
def scanQ (inQ : Bool) : List Char → Bool
  | [] => inQ
  | c :: rest => scanQ (toggle inQ c) rest

/-- `true` when the string, scanned from state `inQ`, never shows the
delimiter `d` outside quotes. -/
def cleanField (d : Char) (inQ : Bool) : List Char → Bool
  | [] => true
  | c :: rest =>
    if c = d ∧ inQ = false then false
    else cleanField d (toggle inQ c) rest

/-- Prepend to the first piece of a split result. -/
def mapHead (f : List Char → List Char) : List (List Char) → List (List Char)
  | [] => []
  | p :: ps => f p :: ps

/-- Split a string at each occurrence of `d` outside quotes. -/
def splitOQ (d : Char) (inQ : Bool) : List Char → List (List Char)
  | [] => [[]]
  | c :: rest =>
    if c = d ∧ inQ = false then [] :: splitOQ d inQ rest
    else mapHead (c :: ·) (splitOQ d (toggle inQ c) rest)

/-- Number of occurrences of `d` outside quotes. -/
def countTop (d : Char) (inQ : Bool) : List Char → Nat
  | [] => 0
  | c :: rest =>
    (if c = d ∧ inQ = false then 1 else 0) + countTop d (toggle inQ c) rest

/-- Undo quote doubling: each `""` pair becomes a single `"`. -/
def undouble : List Char → List Char
  | [] => []
  | [c] => [c]
  | c :: c2 :: rest =>
    if c = '"' ∧ c2 = '"' then '"' :: undouble rest
    else c :: undouble (c2 :: rest)

/-- Strip one layer of surrounding quotes (when present) and undouble the
interior. -/
def unquoteField (f : List Char) : List Char :=
  if 2 ≤ f.length ∧ f.head? = some '"' ∧ f.getLast? = some '"' then
    undouble f.tail.dropLast
  else f

/-- Full RFC-4180-style parse: rows on top-level newlines, fields on
top-level commas, each field unquoted. -/
def parseCSV (s : List Char) : Grid :=
  (splitOQ '\n' false s).map fun r => (splitOQ ',' false r).map unquoteField

/-! ### Scanning and splitting lemmas -/

theorem scanQ_append (a b : List Char) (inQ : Bool) :
    scanQ inQ (a ++ b) = scanQ (scanQ inQ a) b := by
  induction a generalizing inQ with
  | nil => rfl
  | cons c rest ih => simp [scanQ, ih]

theorem cleanField_append (d : Char) (a b : List Char) (inQ : Bool) :
    cleanField d inQ (a ++ b)
      = (cleanField d inQ a && cleanField d (scanQ inQ a) b) := by
  induction a generalizing inQ with
  | nil => simp [cleanField, scanQ]
  | cons c rest ih =>
    by_cases h : c = d ∧ inQ = false
    · simp [cleanField, h]
    · simp [cleanField, h, ih, scanQ]

theorem mapHead_mapHead (f g : List Char → List Char) (l : List (List Char)) :
    mapHead f (mapHead g l) = mapHead (fun x => f (g x)) l := by
  cases l <;> simp [mapHead]

theorem splitOQ_append_clean (d : Char) (a b : List Char) (inQ : Bool)
    (h : cleanField d inQ a = true) :
    splitOQ d inQ (a ++ b)
      = mapHead (a ++ ·) (splitOQ d (scanQ inQ a) b) := by
  induction a generalizing inQ with
  | nil =>
    cases hb : splitOQ d (scanQ inQ []) b <;> simp_all [scanQ, mapHead]
  | cons c rest ih =>
    have hc : ¬ (c = d ∧ inQ = false) := by
      intro hcd
      simp [cleanField, hcd] at h
    rw [cleanField] at h
    simp only [if_neg hc] at h
    simp [splitOQ, if_neg hc, ih _ h, scanQ, mapHead_mapHead]

theorem splitOQ_joinWith (d : Char) (ps : List (List Char)) (hne : ps ≠ [])
    (h : ∀ p ∈ ps, cleanField d false p = true ∧ scanQ false p = false) :
    splitOQ d false (joinWith d ps) = ps := by
  induction ps with
  | nil => exact absurd rfl hne
  | cons p ps ih =>
    obtain ⟨hp, hsp⟩ := h p (List.mem_cons_self p ps)
    cases ps with
    | nil =>
      have : splitOQ d false (p ++ ([] : List Char)) = [p] := by
        rw [splitOQ_append_clean d p [] false hp, hsp]
        simp [splitOQ, mapHead]
      simpa [joinWith] using this
    | cons q ps' =>
      have hrest : ∀ r ∈ q :: ps',
          cleanField d false r = true ∧ scanQ false r = false :=
        fun r hr => h r (List.mem_cons_of_mem p hr)
      have hjoin : joinWith d (p :: q :: ps')
          = p ++ d :: joinWith d (q :: ps') := by
        simp [joinWith]
      rw [hjoin, splitOQ_append_clean d p _ false hp, hsp]
      have hd : splitOQ d false (d :: joinWith d (q :: ps'))
          = [] :: splitOQ d false (joinWith d (q :: ps')) := by
        simp [splitOQ]
      rw [hd, ih (by simp) hrest]
      simp [mapHead]

theorem countTop_append (d : Char) (a b : List Char) (inQ : Bool) :
    countTop d inQ (a ++ b)
      = countTop d inQ a + countTop d (scanQ inQ a) b := by
  induction a generalizing inQ with
  | nil => simp [countTop, scanQ]
  | cons c rest ih => simp [countTop, ih, scanQ, Nat.add_assoc]

theorem countTop_of_clean (d : Char) (p : List Char) (inQ : Bool)
    (h : cleanField d inQ p = true) : countTop d inQ p = 0 := by
  induction p generalizing inQ with
  | nil => rfl
  | cons c rest ih =>
    by_cases hc : c = d ∧ inQ = false
    · simp [cleanField, hc] at h
    · rw [cleanField] at h
      simp only [if_neg hc] at h
      simp [countTop, if_neg hc, ih _ h]

theorem countTop_joinWith (d : Char) (hd : d ≠ '"') (ps : List (List Char))
    (hne : ps ≠ [])
    (h : ∀ p ∈ ps, cleanField d false p = true ∧ scanQ false p = false) :
    countTop d false (joinWith d ps) = ps.length - 1 := by
  induction ps with
  | nil => exact absurd rfl hne
  | cons p ps ih =>
    obtain ⟨hp, hsp⟩ := h p (List.mem_cons_self p ps)
    cases ps with
    | nil => simpa [joinWith] using countTop_of_clean d p false hp
    | cons q ps' =>
      have hrest : ∀ r ∈ q :: ps',
          cleanField d false r = true ∧ scanQ false r = false :=
        fun r hr => h r (List.mem_cons_of_mem p hr)
      have hjoin : joinWith d (p :: q :: ps')
          = p ++ d :: joinWith d (q :: ps') := by
        simp [joinWith]
      have ht : toggle false d = false := by simp [toggle, hd]
      rw [hjoin, countTop_append, hsp, countTop_of_clean d p false hp]
      rw [countTop, if_pos ⟨rfl, rfl⟩, ht, ih (by simp) hrest]
      simp [Nat.add_comm]

/-! ### Cleanliness of serialized fields -/

theorem cleanField_cons (d c : Char) (inQ : Bool) (rest : List Char) :
    cleanField d inQ (c :: rest)
      = if c = d ∧ inQ = false then false
        else cleanField d (toggle inQ c) rest := rfl

theorem scanQ_cons (c : Char) (inQ : Bool) (rest : List Char) :
    scanQ inQ (c :: rest) = scanQ (toggle inQ c) rest := rfl

theorem toggle_quote_false : toggle false '"' = true := by decide

theorem toggle_quote_true : toggle true '"' = false := by decide

theorem toggle_other (inQ : Bool) (c : Char) (hc : c ≠ '"') :
    toggle inQ c = inQ := by simp [toggle, hc]

theorem clean_of_no_mem (d : Char) (s : List Char)
    (hq : '"' ∉ s) (hd : d ∉ s) :
    cleanField d false s = true ∧ scanQ false s = false := by
  induction s with
  | nil => exact ⟨rfl, rfl⟩
  | cons c rest ih =>
    have hcq : c ≠ '"' := fun h => hq (h ▸ List.mem_cons_self c rest)
    have hcd : c ≠ d := fun h => hd (h ▸ List.mem_cons_self c rest)
    obtain ⟨ih1, ih2⟩ := ih (fun h => hq (List.mem_cons_of_mem c h))
      (fun h => hd (List.mem_cons_of_mem c h))
    refine ⟨?_, ?_⟩
    · rw [cleanField_cons, if_neg (fun hh => hcd hh.1), toggle_other _ _ hcq]
      exact ih1
    · rw [scanQ_cons, toggle_other _ _ hcq]
      exact ih2

theorem escapeQuotes_clean (d : Char) (hd : d ≠ '"') (s : List Char) :
    cleanField d true (escapeQuotes s ++ ['"']) = true ∧
      scanQ true (escapeQuotes s ++ ['"']) = false := by
  induction s with
  | nil =>
    refine ⟨?_, ?_⟩
    · rw [show escapeQuotes [] ++ ['"'] = ['"'] from rfl, cleanField_cons,
        if_neg (by simp), toggle_quote_true]
      rfl
    · rw [show escapeQuotes [] ++ ['"'] = ['"'] from rfl, scanQ_cons,
        toggle_quote_true]
      rfl
  | cons c rest ih =>
    obtain ⟨ih1, ih2⟩ := ih
    by_cases hc : c = '"'
    · subst hc
      have hsh : escapeQuotes ('"' :: rest) ++ ['"']
          = '"' :: '"' :: (escapeQuotes rest ++ ['"']) := by
        simp [escapeQuotes]
      refine ⟨?_, ?_⟩
      · rw [hsh, cleanField_cons, if_neg (by simp), toggle_quote_true,
          cleanField_cons, if_neg (fun hh => hd hh.1.symm), toggle_quote_false]
        exact ih1
      · rw [hsh, scanQ_cons, toggle_quote_true, scanQ_cons, toggle_quote_false]
        exact ih2
    · have hsh : escapeQuotes (c :: rest) ++ ['"']
          = c :: (escapeQuotes rest ++ ['"']) := by
        simp [escapeQuotes, hc]
      refine ⟨?_, ?_⟩
      · rw [hsh, cleanField_cons, if_neg (by simp), toggle_other _ _ hc]
        exact ih1
      · rw [hsh, scanQ_cons, toggle_other _ _ hc]
        exact ih2

theorem serializeCell_clean (d : Char) (hd : d = ',' ∨ d = '\n')
    (cell : List Char) :
    cleanField d false (serializeCell cell) = true ∧
      scanQ false (serializeCell cell) = false := by
  have hdq : d ≠ '"' := by rcases hd with h | h <;> simp [h]
  by_cases h : containsSpecial (display cell)
  · obtain ⟨h1, h2⟩ := escapeQuotes_clean d hdq (display cell)
    have hser : serializeCell cell
        = '"' :: (escapeQuotes (display cell) ++ ['"']) := by
      rw [serializeCell, if_pos h]
    refine ⟨?_, ?_⟩
    · rw [hser, cleanField_cons, if_neg (fun hh => hdq hh.1.symm),
        toggle_quote_false]
      exact h1
    · rw [hser, scanQ_cons, toggle_quote_false]
      exact h2
  · have hq : '"' ∉ display cell := fun hm => h (Or.inr (Or.inl hm))
    have hdm : d ∉ display cell := by
      rcases hd with hdc | hdc <;> subst hdc
      · exact fun hm => h (Or.inl hm)
      · exact fun hm => h (Or.inr (Or.inr hm))
    have hser : serializeCell cell = display cell := by
      rw [serializeCell, if_neg h]
    rw [hser]
    exact clean_of_no_mem d (display cell) hq hdm

theorem joinWith_clean (d sep : Char) (hsd : sep ≠ d) (hsq : sep ≠ '"')
    (ps : List (List Char))
    (h : ∀ p ∈ ps, cleanField d false p = true ∧ scanQ false p = false) :
    cleanField d false (joinWith sep ps) = true ∧
      scanQ false (joinWith sep ps) = false := by
  induction ps with
  | nil => exact ⟨rfl, rfl⟩
  | cons p ps ih =>
    obtain ⟨hp, hsp⟩ := h p (List.mem_cons_self p ps)
    cases ps with
    | nil => simpa [joinWith] using ⟨hp, hsp⟩
    | cons q ps' =>
      obtain ⟨ih1, ih2⟩ := ih (fun r hr => h r (List.mem_cons_of_mem p hr))
      have hjoin : joinWith sep (p :: q :: ps')
          = p ++ sep :: joinWith sep (q :: ps') := by
        simp [joinWith]
      refine ⟨?_, ?_⟩
      · rw [hjoin, cleanField_append, hp, hsp, Bool.true_and, cleanField_cons,
          if_neg (fun hh => hsd hh.1), toggle_other _ _ hsq]
        exact ih1
      · rw [hjoin, scanQ_append, hsp, scanQ_cons, toggle_other _ _ hsq]
        exact ih2

theorem serializeRow_clean (r : Row) :
    cleanField '\n' false (serializeRow r) = true ∧
      scanQ false (serializeRow r) = false := by
  refine joinWith_clean '\n' ',' (by decide) (by decide) _ ?_
  intro p hp
  obtain ⟨cell, _, rfl⟩ := List.mem_map.mp hp
  exact serializeCell_clean '\n' (Or.inr rfl) cell

/-! ### Undoubling and unquoting -/

theorem undouble_cons_pair (X : List Char) :
    undouble ('"' :: '"' :: X) = '"' :: undouble X := by
  simp [undouble]

theorem undouble_cons_ne (c : Char) (hc : c ≠ '"') (X : List Char) :
    undouble (c :: X) = c :: undouble X := by
  cases X with
  | nil => rfl
  | cons c2 t => simp [undouble, hc]

theorem undouble_escapeQuotes (s : List Char) :
    undouble (escapeQuotes s) = s := by
  induction s with
  | nil => rfl
  | cons c rest ih =>
    by_cases hc : c = '"'
    · subst hc
      rw [show escapeQuotes ('"' :: rest) = '"' :: '"' :: escapeQuotes rest by
          simp [escapeQuotes],
        undouble_cons_pair, ih]
    · rw [show escapeQuotes (c :: rest) = c :: escapeQuotes rest by
          simp [escapeQuotes, hc],
        undouble_cons_ne c hc, ih]

theorem unquoteField_serializeCell (cell : List Char) :
    unquoteField (serializeCell cell) = display cell := by
  by_cases h : containsSpecial (display cell)
  · have hser : serializeCell cell
        = ('"' :: escapeQuotes (display cell)) ++ ['"'] := by
      rw [serializeCell, if_pos h]
      simp
    rw [hser, unquoteField]
    rw [if_pos ?side]
    case side =>
      refine ⟨?_, ?_, ?_⟩
      · simp
      · simp
      · rw [List.getLast?_concat]
    · simp only [List.cons_append, List.tail_cons, List.dropLast_concat]
      exact undouble_escapeQuotes (display cell)
  · have hq : '"' ∉ display cell := fun hm => h (Or.inr (Or.inl hm))
    have hser : serializeCell cell = display cell := by
      rw [serializeCell, if_neg h]
    rw [hser, unquoteField]
    cases hd : display cell with
    | nil => simp
    | cons c rest =>
      have hc : c ≠ '"' := fun hcq => by
        subst hcq
        exact hq (hd ▸ List.mem_cons_self _ _)
      rw [if_neg ?notq]
      case notq =>
        rintro ⟨-, h2, -⟩
        exact hc (by simpa using h2)

/-! ### Splitting the serialized text recovers the structure -/

theorem splitOQ_serializeRow (r : Row) (hr : r ≠ []) :
    splitOQ ',' false (serializeRow r) = r.map serializeCell := by
  refine splitOQ_joinWith ',' (r.map serializeCell) (by simpa) ?_
  intro p hp
  obtain ⟨cell, _, rfl⟩ := List.mem_map.mp hp
  exact serializeCell_clean ',' (Or.inl rfl) cell

theorem splitOQ_serializeGrid (g : Grid) (hg : g ≠ []) :
    splitOQ '\n' false (serializeGrid g) = g.map serializeRow := by
  refine splitOQ_joinWith '\n' (g.map serializeRow) (by simpa) ?_
  intro p hp
  obtain ⟨r, _, rfl⟩ := List.mem_map.mp hp
  exact serializeRow_clean r

/-- A serialized field that is wrapped in double quotes. -/
def isQuoted (f : List Char) : Prop :=
  ∃ mid : List Char, f = '"' :: (mid ++ ['"'])

/-! ### Claims -/

/-- C1: a serialized field is wrapped in double quotes iff the cell's
display string contains a comma, a double quote, or a newline; a field
with none of these serializes as the plain display string. -/
theorem quoting_iff_special (cell : List Char) :
    (containsSpecial (display cell) ↔ isQuoted (serializeCell cell)) ∧
    (¬ containsSpecial (display cell) → serializeCell cell = display cell) := by
  constructor
  · constructor
    · intro h
      exact ⟨escapeQuotes (display cell), by rw [serializeCell, if_pos h]⟩
    · rintro ⟨mid, hmid⟩
      by_contra h
      rw [serializeCell, if_neg h] at hmid
      exact h (Or.inr (Or.inl (hmid ▸ List.mem_cons_self _ _)))
  · intro h
    rw [serializeCell, if_neg h]

/-- Witness for C1 at concrete cells `a,b` (quoted) and `ab` (plain). -/
theorem quoting_iff_special_witness :
    isQuoted (serializeCell "a,b".toList) ∧
      serializeCell "ab".toList = "ab".toList :=
  ⟨(quoting_iff_special ("a,b".toList)).1.mp (by decide),
    (quoting_iff_special ("ab".toList)).2 (by decide)⟩

/-- C2: a field containing a special character serializes as the display
string with every `"` doubled, wrapped in `"`; character by character,
nothing else is altered. -/
theorem quoted_field_shape (cell : List Char)
    (h : containsSpecial (display cell)) :
    serializeCell cell = '"' :: (escapeQuotes (display cell) ++ ['"']) ∧
      escapeQuotes (display cell)
        = ((display cell).map fun c =>
            if c = '"' then ['"', '"'] else [c]).flatten := by
  refine ⟨by rw [serializeCell, if_pos h], ?_⟩
  generalize display cell = s
  induction s with
  | nil => rfl
  | cons c rest ih => by_cases hc : c = '"' <;> simp [escapeQuotes, hc, ih]

/-- Witness for C2 at the concrete cell `d"e`. -/
theorem quoted_field_shape_witness :
    serializeCell "d\"e".toList
      = '"' :: (escapeQuotes ("d\"e".toList) ++ ['"']) :=
  (quoted_field_shape ("d\"e".toList) (by decide)).1

/-- C3 counterexample: round-tripping fails on a grid with an empty row
(and on the empty grid); moreover an empty row and a row with a single
empty cell serialize identically, so no parser can recover both. -/
theorem roundTrip_fails_on_empty_row :
    parseCSV (serializeGrid [[]]) ≠ [[]] ∧
    parseCSV (serializeGrid ([] : Grid)) ≠ ([] : Grid) ∧
    serializeGrid [[]] = serializeGrid [[[]]] := by
  refine ⟨by decide, by decide, by decide⟩

/-- C3 (amended): for every non-empty grid all of whose rows are
non-empty, parsing the serializer's output with the RFC-4180-style parser
recovers exactly the original grid of display strings. -/
theorem roundTrip_nonempty_rows (g : Grid) (hg : g ≠ [])
    (hr : ∀ r ∈ g, r ≠ []) :
    parseCSV (serializeGrid g) = g := by
  unfold parseCSV
  rw [splitOQ_serializeGrid g hg, List.map_map]
  have hrow : ∀ r ∈ g,
      ((splitOQ ',' false (serializeRow r)).map unquoteField) = r := by
    intro r hrg
    rw [splitOQ_serializeRow r (hr r hrg), List.map_map]
    have : ∀ cell ∈ r, (unquoteField ∘ serializeCell) cell = id cell :=
      fun cell _ => unquoteField_serializeCell cell
    rw [List.map_congr_left this, List.map_id]
  calc g.map (fun r => (splitOQ ',' false (serializeRow r)).map unquoteField)
      = g.map id := List.map_congr_left hrow
    _ = g := List.map_id g

/-- Witness for C3 at the Scenario-A grid. -/
theorem roundTrip_nonempty_rows_witness :
    parseCSV (serializeGrid
        [["a".toList, "b,c".toList], ["d\"e".toList, "f".toList]])
      = [["a".toList, "b,c".toList], ["d\"e".toList, "f".toList]] :=
  roundTrip_nonempty_rows _ (by simp) (by decide)

/-- C4 counterexample: for a grid with an empty row the field count
fails — the empty row serializes to the empty line, which splits at
top-level commas into one (empty) field although the input row has zero
cells. -/
theorem field_count_fails_on_empty_row :
    serializeGrid [["a".toList], []] = "a\n".toList ∧
    (splitOQ ',' false (serializeRow ([] : Row))).length ≠ ([] : Row).length := by
  refine ⟨by decide, by decide⟩

/-- C4 (amended): for every non-empty grid the CSV text has exactly one
output row per grid row; within each output row whose input row is
non-empty, exactly one field per cell — short rows are serialized as-is
with no padding.  An empty input row serializes as the empty line, which
re-splits as a single empty field rather than zero fields. -/
theorem row_and_field_structure_amended (g : Grid) (hg : g ≠ []) :
    splitOQ '\n' false (serializeGrid g) = g.map serializeRow ∧
    (splitOQ '\n' false (serializeGrid g)).length = g.length ∧
    ∀ r ∈ g, r ≠ [] →
      (splitOQ ',' false (serializeRow r)).length = r.length := by
  refine ⟨splitOQ_serializeGrid g hg, ?_, ?_⟩
  · rw [splitOQ_serializeGrid g hg, List.length_map]
  · intro r _ hrne
    rw [splitOQ_serializeRow r hrne, List.length_map]

/-- Witness for C4 at the Scenario-D grid `[["x","y"],["z"]]`. -/
theorem row_and_field_structure_amended_witness :
    (splitOQ '\n' false
        (serializeGrid [["x".toList, "y".toList], ["z".toList]])).length = 2 ∧
    (splitOQ ',' false (serializeRow ["x".toList, "y".toList])).length = 2 :=
  ⟨(row_and_field_structure_amended [["x".toList, "y".toList], ["z".toList]]
      (by simp)).2.1,
    (row_and_field_structure_amended [["x".toList, "y".toList], ["z".toList]]
      (by simp)).2.2 ["x".toList, "y".toList] (by decide) (by decide)⟩

/-- C5: within a row, fields are joined by exactly one comma (row length
minus one top-level commas, so none trailing), and rows are joined by
exactly one newline (grid length minus one top-level newlines, so none
trailing at the end of the document). -/
theorem separator_counts (g : Grid) (hg : g ≠ []) :
    countTop '\n' false (serializeGrid g) = g.length - 1 ∧
    ∀ r ∈ g, countTop ',' false (serializeRow r) = r.length - 1 := by
  constructor
  · have hcl : ∀ p ∈ g.map serializeRow,
        cleanField '\n' false p = true ∧ scanQ false p = false := by
      intro p hp
      obtain ⟨r, _, rfl⟩ := List.mem_map.mp hp
      exact serializeRow_clean r
    have h := countTop_joinWith '\n' (by decide) (g.map serializeRow)
      (by simpa) hcl
    rw [serializeGrid]
    simpa using h
  · intro r _
    cases r with
    | nil => rfl
    | cons c rest =>
      have hcl : ∀ p ∈ (c :: rest).map serializeCell,
          cleanField ',' false p = true ∧ scanQ false p = false := by
        intro p hp
        obtain ⟨cell, _, rfl⟩ := List.mem_map.mp hp
        exact serializeCell_clean ',' (Or.inl rfl) cell
      have h := countTop_joinWith ',' (by decide)
        ((c :: rest).map serializeCell) (by simp) hcl
      rw [serializeRow]
      simpa using h

/-- Witness for C5 at the grid `[["a","b"],["c"]]`. -/
theorem separator_counts_witness :
    countTop '\n' false
        (serializeGrid [["a".toList, "b".toList], ["c".toList]]) = 1 :=
  (separator_counts [["a".toList, "b".toList], ["c".toList]] (by simp)).1

/-- C6: an empty grid makes the serializer signal "no data" (`none`,
distinct from an empty string), the driver writes no file for that tab,
and the remaining tabs are processed unchanged. -/
theorem empty_grid_skipped :
    export_sheet_to_csv [] = none ∧
    (∀ s : List Char, (none : Option (List Char)) ≠ some s) ∧
    (∀ name : List Char, processTab name [] = none) ∧
    (∀ (name : List Char) (rest : List (List Char × Grid)),
      download_all_sheets ((name, ([] : Grid)) :: rest)
        = download_all_sheets rest) := by
  refine ⟨rfl, fun s => by simp, fun name => rfl, fun name rest => ?_⟩
  simp [download_all_sheets, List.filterMap_cons]
  rfl

/-- Witness for C6 at a concrete tab list. -/
theorem empty_grid_skipped_witness :
    processTab ("Tab1".toList) [] = none ∧
    download_all_sheets [("A".toList, ([] : Grid)), ("B".toList, [["x".toList]])]
      = download_all_sheets [("B".toList, [["x".toList]])] :=
  ⟨empty_grid_skipped.2.2.1 ("Tab1".toList),
    empty_grid_skipped.2.2.2 ("A".toList) [("B".toList, [["x".toList]])]⟩

/-- C7: serialization factors through the display-string conversion
(cells with equal display strings serialize equally), the empty cell's
display string is empty, and it serializes as an empty field. -/
theorem display_first_empty_field :
    (∀ c1 c2 : List Char, display c1 = display c2 →
      serializeCell c1 = serializeCell c2) ∧
    display [] = [] ∧ serializeCell [] = [] := by
  refine ⟨fun c1 c2 h => ?_, rfl, rfl⟩
  rw [serializeCell, serializeCell, h]

/-- Witness for C7 at a concrete cell. -/
theorem display_first_empty_field_witness :
    serializeCell "a".toList = serializeCell "a".toList :=
  display_first_empty_field.1 ("a".toList) ("a".toList) rfl

/-- C8: Scenario A — serializing `[["a","b,c"],["d\"e","f"]]` yields the
two lines `a,"b,c"` and `"d""e",f` joined by a single newline. -/
theorem scenarioA :
    serializeGrid [["a".toList, "b,c".toList], ["d\"e".toList, "f".toList]]
      = "a,\"b,c\"\n\"d\"\"e\",f".toList := by
  decide

/-- C9: the output filename is the tab name with every `/` replaced by
`_`, followed by `.csv`; positionally, non-separator characters are
unchanged; `Q1/Report` maps to `Q1_Report.csv`. -/
theorem filename_sanitization :
    (∀ name : List Char, '/' ∉ sanitize name) ∧
    (∀ (name : List Char) (i : Nat),
      (sanitize name)[i]?
        = (name[i]?).map fun c => if c = '/' then '_' else c) ∧
    outName ("Q1/Report".toList) = "Q1_Report.csv".toList := by
  refine ⟨?_, ?_, by decide⟩
  · intro name hmem
    obtain ⟨c, _, hc⟩ := List.mem_map.mp hmem
    by_cases h : c = '/' <;> simp [h] at hc
  · intro name i
    simp [sanitize]

/-- Witness for C9 at the tab name `a/b`. -/
theorem filename_sanitization_witness :
    '/' ∉ sanitize ("a/b".toList) ∧
    (sanitize ("a/b".toList))[1]?
      = (("a/b".toList)[1]?).map fun c => if c = '/' then '_' else c :=
  ⟨filename_sanitization.1 ("a/b".toList),
    filename_sanitization.2.1 ("a/b".toList) 1⟩

/-- C10: the driver writes a file for a tab iff the export is a non-empty
string; a non-empty grid serializing to the empty string (one row with
one empty cell) produces no file, just like an empty grid. -/
theorem write_iff_nonempty_csv :
    (∀ (name : List Char) (g : Grid) (out : List Char × List Char),
      processTab name g = some out ↔
        ∃ s, export_sheet_to_csv g = some s ∧ s ≠ [] ∧
          out = (outName name, s)) ∧
    export_sheet_to_csv [[[]]] = some [] ∧
    (∀ name : List Char, processTab name [[[]]] = none) := by
  refine ⟨fun name g out => ?_, rfl, fun name => rfl⟩
  rw [processTab]
  cases hexp : export_sheet_to_csv g with
  | none => simp
  | some s =>
    by_cases hs : s = []
    · subst hs
      simp
    · simp only [if_neg hs, Option.some.injEq]
      constructor
      · intro h
        exact ⟨s, rfl, hs, h.symm⟩
      · rintro ⟨s', hs', -, rfl⟩
        obtain rfl : s' = s := by simpa using hs'.symm
        rfl

/-- Witness for C10: a tab with content is written, the empty-cell grid
is not. -/
theorem write_iff_nonempty_csv_witness :
    processTab ("T".toList) [["a".toList]]
      = some (outName ("T".toList), "a".toList) ∧
    processTab ("T".toList) [[[]]] = none :=
  ⟨((write_iff_nonempty_csv.1 ("T".toList) [["a".toList]]
      (outName ("T".toList), "a".toList)).mpr
        ⟨"a".toList, by decide, by decide, rfl⟩),
    write_iff_nonempty_csv.2.2 ("T".toList)⟩
